import Mathlib

/-!
# Verification of the Smart Email Reminders processing daemon

A shallow embedding of the `EmailDaemon` class (`src/daemon/email-daemon.ts`)
and the parts of the data model it manipulates.  External collaborators
(mail providers, the rule matcher, the Claude field extractor, the Apple
Reminders sink) are modelled as oracle functions supplied to each cycle:
the daemon only observes their return values, so any behaviour of the real
collaborators corresponds to some choice of oracle.

Conventions of the embedding:
* JavaScript `Date` values are modelled by their millisecond timestamps
  (`Int`); `new Date(0)` is `0`, comparison of dates is integer comparison.
* A JavaScript `Set<string>` is modelled as a `List String` in insertion
  order; `Set.has` is membership and `Set.add` appends when absent.
* `async` methods that can throw are modelled with `Except String` or an
  `Option String` error component; a caught exception's `.message` is the
  carried string.
* Events emitted on the `EventEmitter` surface, and each `saveState` call,
  are collected in an ordered trace (`List DaemonEvent`).
-/

/-- Mail provider tag (`provider: "gmail" | "icloud"` in `EmailDataSchema`). -/
inductive Provider where
  | gmail
  | icloud
deriving DecidableEq, Repr

/-- `EmailData` (`src/types`): one fetched message.  `date` is the message
date in milliseconds; `matchedRules` is the rule-name enrichment added by
`EmailFilter`. The `processed` schema default is not consulted by the daemon
and is omitted. -/
structure EmailData where
  id : String
  «from» : String
  subject : String
  body : String
  date : Int
  provider : Provider
  matchedRules : List String
deriving DecidableEq, Repr

/-- `EmailRule` (`src/types`), restricted to the two fields the daemon
reads: `name` (compared against `ProcessingResult.ruleName`) and
`reminderTemplate` (passed opaquely to the Reminder Sink; modelled as an
opaque string payload). -/
structure EmailRule where
  name : String
  reminderTemplate : String
deriving DecidableEq, Repr

/-- `ProcessingResult` (`src/types`): an extraction result produced by the
Claude processor for one email/rule pair.  `extractedFields` is the
`Record<string, any>` of extracted fields, modelled as an association list.
`confidence` is the 0..100 score (JS number; the daemon only compares it
with 25). Fields the daemon never reads (`extractionMethod`, `timestamp`,
`processingTime`) are omitted. -/
structure ProcessingResult where
  emailId : String
  ruleName : String
  extractedFields : List (String × String)
  confidence : Int
deriving DecidableEq, Repr

/-- Result of `AppleReminders.createReminderFromExtractedData`:
`{success, reminderId?, error?}`. -/
structure ReminderResult where
  success : Bool
  reminderId : Option String
  error : Option String
deriving DecidableEq, Repr

/-- `DaemonConfig` (email-daemon.ts).  `stateFilePath` is not modelled:
persistence is modelled by the `stateSaved` trace events and `StateFile`
inputs. -/
structure DaemonConfig where
  intervalMinutes : Nat
  maxEmailsPerScan : Nat
  retryAttempts : Nat
  enableGmail : Bool
  enableIcloud : Bool
deriving DecidableEq, Repr

/-- `DaemonState` (email-daemon.ts): the persisted daemon state.
`processedEmailIds` is the JS `Set<string>` in insertion order. -/
structure DaemonState where
  lastProcessedTimestamp : Int
  processedEmailIds : List String
  totalEmailsProcessed : Nat
  totalRemindersCreated : Nat
  lastErrorTimestamp : Option Int
  lastErrorMessage : Option String
deriving DecidableEq, Repr

/-- `ProcessingQueueItem` (email-daemon.ts). -/
structure ProcessingQueueItem where
  email : EmailData
  rules : List EmailRule
  attempts : Nat
  lastAttemptTime : Option Int
  error : Option String
deriving DecidableEq, Repr

/-- A record of one call made to the Reminder Sink
(`createReminderFromExtractedData(fields, template, emailId)`), used to
observe which extraction results reach the sink. -/
structure SinkCall where
  fields : List (String × String)
  template : String
  emailId : String
deriving DecidableEq, Repr

/-- The JSON object written by `saveState` (`stateToSave`): ids as a JSON
array, timestamps as ISO-8601 strings (modelled by their millisecond
values — on valid dates `toISOString`/`new Date` is a bijection between
ISO strings and timestamps), `undefined` optional fields dropped by
`JSON.stringify` (modelled as `none`). -/
structure PersistedState where
  lastProcessedTimestamp : Int
  processedEmailIds : List String
  totalEmailsProcessed : Nat
  totalRemindersCreated : Nat
  lastErrorTimestamp : Option Int
  lastErrorMessage : Option String
deriving DecidableEq, Repr

/-- The shape `loadState` reads back out of `JSON.parse`: every field the
code accesses on `savedState`, with `Option` marking fields whose absence
the code tolerates (`|| []`, `|| 0`, the `lastError*` conditionals). -/
structure ParsedStateJson where
  lastProcessedTimestamp : Int
  processedEmailIds : Option (List String)
  totalEmailsProcessed : Option Nat
  totalRemindersCreated : Option Nat
  lastErrorTimestamp : Option Int
  lastErrorMessage : Option String
deriving DecidableEq, Repr

/-- Contents of the state file as seen by `loadState`: absent (`ENOENT`),
unreadable or not valid JSON (`JSON.parse` throws), or parsed into the
persisted shape. -/
inductive StateFile where
  | missing
  | invalid (raw : String)
  | parsed (p : ParsedStateJson)
deriving DecidableEq, Repr

/-- The daemon's observable actions during a cycle, in order: the events
emitted on the `EventEmitter` plus a `stateSaved` marker for each
`saveState` call (which writes the serialized state). -/
inductive DaemonEvent where
  | reminderCreated (emailId : String) (reminderId : Option String)
      (ruleName : String) (confidence : Int)
  | processingFailed (emailId : String) (error : String) (attempts : Nat)
  | processingComplete (emailsProcessed : Nat) (processingTime : Int) (queueSize : Nat)
  | processingError (message : String)
  | stateSaved (s : PersistedState)
deriving DecidableEq, Repr

/-- JS `Set.has`. -/
def setHas (s : List String) (x : String) : Bool :=
  decide (x ∈ s)

/-- JS `Set.add`: appends iff absent (insertion order preserved). -/
def setAdd (s : List String) (x : String) : List String :=
  if x ∈ s then s else s ++ [x]

/-- JS `new Set(array)`: inserts the array's elements left to right. -/
def listToSet (l : List String) : List String :=
  l.foldl setAdd []

/-- The loop body of `processQueueItem` over the `ProcessingResult` list:
skip results with `confidence < 25`; skip results whose rule name matches
no rule; otherwise call the sink — on success count the reminder and emit
`reminderCreated`, on failure throw `reminderResult.error`.  Returns
(reminders created before any throw, events emitted before any throw,
sink calls made, the thrown error if any). -/
def processResults (sink : List (String × String) → String → String → ReminderResult)
    (email : EmailData) (rules : List EmailRule) :
    List ProcessingResult → Nat × List DaemonEvent × List SinkCall × Option String
  | [] => (0, [], [], none)
  | r :: rest =>
    if r.confidence < 25 then
      processResults sink email rules rest
    else
      match rules.find? (fun ru => ru.name == r.ruleName) with
      | none => processResults sink email rules rest
      | some ru =>
        let rr := sink r.extractedFields ru.reminderTemplate email.id
        let call : SinkCall := ⟨r.extractedFields, ru.reminderTemplate, email.id⟩
        if rr.success then
          let (n, evs, calls, err) := processResults sink email rules rest
          (n + 1,
           DaemonEvent.reminderCreated email.id rr.reminderId r.ruleName r.confidence :: evs,
           call :: calls, err)
        else
          (0, [], [call], some (rr.error.getD ""))

/-- `processQueueItem`: run the extractor on the item's email and rules
(`processMultipleEmails([email], rules)`), then process each result.  An
extractor throw fails the item before any sink call. -/
def processQueueItem
    (ex : EmailData → List EmailRule → Except String (List ProcessingResult))
    (sink : List (String × String) → String → String → ReminderResult)
    (item : ProcessingQueueItem) :
    Nat × List DaemonEvent × List SinkCall × Option String :=
  match ex item.email item.rules with
  | .error e => (0, [], [], some e)
  | .ok results => processResults sink item.email item.rules results

/-- One iteration of the `for (const item of itemsToProcess)` loop in
`processQueue`, acting on (state, live queue, emitted events).  On item
success the email id is marked processed and `totalEmailsProcessed`
incremented; on a throw the item's attempt bookkeeping is updated and it
is either re-appended to the live queue (`attempts < retryAttempts`) or
dropped with a `processingFailed` event.  Reminders created before a
throw stay counted. -/
def drainItem (cfg : DaemonConfig)
    (ex : EmailData → List EmailRule → Except String (List ProcessingResult))
    (sink : List (String × String) → String → String → ReminderResult)
    (now : Int)
    (acc : DaemonState × List ProcessingQueueItem × List DaemonEvent)
    (item : ProcessingQueueItem) :
    DaemonState × List ProcessingQueueItem × List DaemonEvent :=
  let (st, live, evs) := acc
  match processQueueItem ex sink item with
  | (n, ievs, _, none) =>
      ({ st with
          processedEmailIds := setAdd st.processedEmailIds item.email.id,
          totalEmailsProcessed := st.totalEmailsProcessed + 1,
          totalRemindersCreated := st.totalRemindersCreated + n },
       live, evs ++ ievs)
  | (n, ievs, _, some e) =>
      let st' := { st with totalRemindersCreated := st.totalRemindersCreated + n }
      let item' := { item with
          attempts := item.attempts + 1, lastAttemptTime := some now, error := some e }
      if item'.attempts < cfg.retryAttempts then
        (st', live ++ [item'], evs ++ ievs)
      else
        (st', live,
         evs ++ ievs ++ [DaemonEvent.processingFailed item.email.id e item'.attempts])

/-- `processQueue`: snapshot the queue, clear the live queue, process each
snapshot item once; failures are re-queued on the live queue for the next
drain.  Returns the updated state, the live queue, and the emitted
events. -/
def processQueue (cfg : DaemonConfig)
    (ex : EmailData → List EmailRule → Except String (List ProcessingResult))
    (sink : List (String × String) → String → String → ReminderResult)
    (now : Int) (st : DaemonState) (queue : List ProcessingQueueItem) :
    DaemonState × List ProcessingQueueItem × List DaemonEvent :=
  let itemsToProcess := queue
  itemsToProcess.foldl (drainItem cfg ex sink now) (st, [], [])

/-- The collaborator oracles and clock readings one cycle interacts with.
`gmailReady`/`icloudReady` model `client?.isReady()`; the `Get` functions
model `getEmails` called with the computed limit (an `Except.error` is the
per-source failure caught and replaced by `[]`); `matchRules` models the
`EmailFilter` enrichment; `extract` the Claude processor; `sink` the
Apple Reminders call.  `startTime` is the cycle's `Date.now()` at entry,
`endTime` every later clock reading of the cycle. -/
structure CycleEnv where
  rules : Except String (List EmailRule)
  gmailReady : Bool
  gmailGet : Nat → Except String (List EmailData)
  icloudReady : Bool
  icloudGet : Nat → Except String (List EmailData)
  matchRules : EmailData → List EmailRule → List String
  extract : EmailData → List EmailRule → Except String (List ProcessingResult)
  sink : List (String × String) → String → String → ReminderResult
  startTime : Int
  endTime : Int

/-- `fetchNewEmails`: ask each ready provider for up to
`Math.floor(maxEmailsPerScan / 2)` messages (per-source failures caught,
yielding `[]`), flatten, and keep only messages that are not yet processed
and strictly newer than `lastProcessedTimestamp`. -/
def fetchNewEmails (cfg : DaemonConfig) (st : DaemonState) (env : CycleEnv) :
    List EmailData :=
  let gmailEmails :=
    if env.gmailReady then
      match env.gmailGet (cfg.maxEmailsPerScan / 2) with
      | .ok l => l
      | .error _ => []
    else []
  let icloudEmails :=
    if env.icloudReady then
      match env.icloudGet (cfg.maxEmailsPerScan / 2) with
      | .ok l => l
      | .error _ => []
    else []
  (gmailEmails ++ icloudEmails).filter fun e =>
    !(setHas st.processedEmailIds e.id) && decide (st.lastProcessedTimestamp < e.date)

/-- `addToQueue`: push a fresh `ProcessingQueueItem` with `attempts = 0`. -/
def addToQueue (queue : List ProcessingQueueItem) (email : EmailData)
    (rules : List EmailRule) : List ProcessingQueueItem :=
  queue ++ [{ email := email, rules := rules, attempts := 0,
              lastAttemptTime := none, error := none }]

/-- The enqueue loop of `processEmailsOnce`: for each matched email, add it
to the queue unless its id is already in `processedEmailIds`.  (The only
guard is the processed-set check; queue membership is not consulted.) -/
def enqueueMatched (st : DaemonState) (queue : List ProcessingQueueItem)
    (rules : List EmailRule) (matchedEmails : List EmailData) :
    List ProcessingQueueItem :=
  matchedEmails.foldl
    (fun q e => if setHas st.processedEmailIds e.id then q else addToQueue q e rules)
    queue

/-- `saveState`'s `stateToSave`: ids via `Array.from`, timestamps via
`toISOString` (modelled by the timestamp value), optional fields dropped
when `undefined`. -/
def serializeState (st : DaemonState) : PersistedState :=
  { lastProcessedTimestamp := st.lastProcessedTimestamp,
    processedEmailIds := st.processedEmailIds,
    totalEmailsProcessed := st.totalEmailsProcessed,
    totalRemindersCreated := st.totalRemindersCreated,
    lastErrorTimestamp := st.lastErrorTimestamp,
    lastErrorMessage := st.lastErrorMessage }

/-- The state the constructor installs: epoch timestamp, empty id set,
zero counters. -/
def initialState : DaemonState :=
  { lastProcessedTimestamp := 0, processedEmailIds := [],
    totalEmailsProcessed := 0, totalRemindersCreated := 0,
    lastErrorTimestamp := none, lastErrorMessage := none }

/-- `loadState`: on `ENOENT` or any read/parse error the exception is
caught and the current state kept; on a parsed file every field of the
state is rebuilt from the file (`|| []`, `|| 0` and the `lastError`
conditionals supplying defaults for absent fields). -/
def loadState (current : DaemonState) (file : StateFile) : DaemonState :=
  match file with
  | .missing => current
  | .invalid _ => current
  | .parsed p =>
      { lastProcessedTimestamp := p.lastProcessedTimestamp,
        processedEmailIds := listToSet (p.processedEmailIds.getD []),
        totalEmailsProcessed := p.totalEmailsProcessed.getD 0,
        totalRemindersCreated := p.totalRemindersCreated.getD 0,
        lastErrorTimestamp := p.lastErrorTimestamp,
        lastErrorMessage := p.lastErrorMessage }

/-- Re-parsing the JSON object produced by `saveState`: every written
field is present; `JSON.stringify` drops `undefined` fields, so the
optional fields come back exactly as saved. -/
def parseSaved (p : PersistedState) : ParsedStateJson :=
  { lastProcessedTimestamp := p.lastProcessedTimestamp,
    processedEmailIds := some p.processedEmailIds,
    totalEmailsProcessed := some p.totalEmailsProcessed,
    totalRemindersCreated := some p.totalRemindersCreated,
    lastErrorTimestamp := p.lastErrorTimestamp,
    lastErrorMessage := p.lastErrorMessage }

/-- `processEmailsOnce`: one processing cycle.  Takes the state and the
live queue at cycle entry and returns the state, the live queue, and the
ordered trace of observable actions.  Mirrors the `try/catch/finally`:
a rules-load throw records the error and emits `processingError`; a fetch
with zero results returns early; otherwise match, enqueue unprocessed
matches, drain the queue, stamp `lastProcessedTimestamp`, and emit
`processingComplete`.  The `finally` block saves state on every path. -/
def processEmailsOnce (cfg : DaemonConfig) (env : CycleEnv) (st : DaemonState)
    (queue : List ProcessingQueueItem) :
    DaemonState × List ProcessingQueueItem × List DaemonEvent :=
  match env.rules with
  | .error e =>
      let st' := { st with lastErrorTimestamp := some env.endTime,
                           lastErrorMessage := some e }
      (st', queue, [DaemonEvent.processingError e,
                    DaemonEvent.stateSaved (serializeState st')])
  | .ok rules =>
      let allEmails := fetchNewEmails cfg st env
      if allEmails.isEmpty then
        (st, queue, [DaemonEvent.stateSaved (serializeState st)])
      else
        let filteredEmails := allEmails.map fun e =>
          { e with matchedRules := env.matchRules e rules }
        let matchedEmails := filteredEmails.filter fun e => !e.matchedRules.isEmpty
        let queue1 := enqueueMatched st queue rules matchedEmails
        let (st1, queue2, evs) :=
          processQueue cfg env.extract env.sink env.endTime st queue1
        let st2 := { st1 with lastProcessedTimestamp := env.endTime }
        (st2, queue2,
         evs ++ [DaemonEvent.processingComplete matchedEmails.length
                   (env.endTime - env.startTime) queue2.length,
                 DaemonEvent.stateSaved (serializeState st2)])

/-- Iterated queue drains (the retry schedule: one drain per cycle),
accumulating the events of every drain. -/
def drainN (cfg : DaemonConfig)
    (ex : EmailData → List EmailRule → Except String (List ProcessingResult))
    (sink : List (String × String) → String → String → ReminderResult)
    (now : Int) (st : DaemonState) (queue : List ProcessingQueueItem) :
    Nat → DaemonState × List ProcessingQueueItem × List DaemonEvent
  | 0 => (st, queue, [])
  | k + 1 =>
      let (s, q, evs) := drainN cfg ex sink now st queue k
      let (s', q', evs') := processQueue cfg ex sink now s q
      (s', q', evs ++ evs')

/-! ## Helper lemmas about the embedded operations -/

/-- Which email a trace event is attributed to (`reminderCreated` and
`processingFailed` carry an email id; cycle-level events do not). -/
def eventEmailId : DaemonEvent → Option String
  | .reminderCreated eid _ _ _ => some eid
  | .processingFailed eid _ _ => some eid
  | .processingComplete _ _ _ => none
  | .processingError _ => none
  | .stateSaved _ => none

/-- Recognizer for `processingComplete` events. -/
def isProcessingComplete : DaemonEvent → Bool
  | .processingComplete _ _ _ => true
  | _ => false

/-- Recognizer for `processingError` events. -/
def isProcessingError : DaemonEvent → Bool
  | .processingError _ => true
  | _ => false

theorem eventEmailId_some_not_cycle_event {ev : DaemonEvent} {s : String}
    (h : eventEmailId ev = some s) :
    isProcessingComplete ev = false ∧ isProcessingError ev = false := by
  cases ev <;> simp [eventEmailId, isProcessingComplete, isProcessingError] at h ⊢

theorem mem_setAdd_of_mem {s : List String} {x : String} (y : String) (h : x ∈ s) :
    x ∈ setAdd s y := by
  unfold setAdd
  split
  · exact h
  · exact List.mem_append_left _ h

theorem mem_setAdd_self (s : List String) (x : String) : x ∈ setAdd s x := by
  unfold setAdd
  split
  · assumption
  · simp

theorem foldl_setAdd_of_nodup :
    ∀ (l acc : List String), (acc ++ l).Nodup → l.foldl setAdd acc = acc ++ l := by
  intro l
  induction l with
  | nil => intro acc _; simp
  | cons a l ih =>
    intro acc h
    have ha : a ∉ acc := by
      intro hc
      rcases List.nodup_append.mp h with ⟨_, _, hdisj⟩
      exact hdisj hc (List.mem_cons_self a l)
    have hstep : setAdd acc a = acc ++ [a] := by
      unfold setAdd
      simp [ha]
    have h' : ((acc ++ [a]) ++ l).Nodup := by
      rw [List.append_assoc]
      exact h
    rw [List.foldl_cons, hstep, ih (acc ++ [a]) h']
    simp

theorem listToSet_of_nodup {l : List String} (h : l.Nodup) : listToSet l = l := by
  unfold listToSet
  simpa using foldl_setAdd_of_nodup l [] (by simpa using h)

theorem processResults_events (sink : List (String × String) → String → String → ReminderResult)
    (email : EmailData) (rules : List EmailRule) (results : List ProcessingResult) :
    ∀ ev ∈ (processResults sink email rules results).2.1, eventEmailId ev = some email.id := by
  induction results with
  | nil => intro ev hev; simp [processResults] at hev
  | cons r rest ih =>
    intro ev hev
    by_cases hc : r.confidence < 25
    · rw [processResults, if_pos hc] at hev
      exact ih ev hev
    · rw [processResults, if_neg hc] at hev
      rcases hfind : rules.find? (fun ru => ru.name == r.ruleName) with _ | ru
      · rw [hfind] at hev
        exact ih ev hev
      · rw [hfind] at hev
        by_cases hs : (sink r.extractedFields ru.reminderTemplate email.id).success = true
        · simp only [hs, if_true] at hev
          rcases List.mem_cons.mp hev with h | h
          · subst h; rfl
          · exact ih ev h
        · simp only [Bool.not_eq_true] at hs
          simp [hs] at hev

theorem processQueueItem_events
    (ex : EmailData → List EmailRule → Except String (List ProcessingResult))
    (sink : List (String × String) → String → String → ReminderResult)
    (item : ProcessingQueueItem) :
    ∀ ev ∈ (processQueueItem ex sink item).2.1, eventEmailId ev = some item.email.id := by
  unfold processQueueItem
  rcases ex item.email item.rules with e | results
  · intro ev hev; simp at hev
  · exact processResults_events sink item.email item.rules results

/-- `processQueueItem` reads only the item's `email` and `rules` fields;
the retry bookkeeping fields do not affect it. -/
theorem processQueueItem_congr
    (ex : EmailData → List EmailRule → Except String (List ProcessingResult))
    (sink : List (String × String) → String → String → ReminderResult)
    (it it' : ProcessingQueueItem)
    (he : it.email = it'.email) (hr : it.rules = it'.rules) :
    processQueueItem ex sink it = processQueueItem ex sink it' := by
  unfold processQueueItem
  rw [he, hr]

/-- Results that are all low-confidence or rule-less are all skipped:
no reminder, no event, no sink call, no failure. -/
theorem processResults_all_skipped
    (sink : List (String × String) → String → String → ReminderResult)
    (email : EmailData) (rules : List EmailRule) (results : List ProcessingResult)
    (h : ∀ r ∈ results, r.confidence < 25 ∨
          rules.find? (fun ru => ru.name == r.ruleName) = none) :
    processResults sink email rules results = (0, [], [], none) := by
  induction results with
  | nil => rfl
  | cons r rest ih =>
    have hrest := ih (fun x hx => h x (List.mem_cons_of_mem r hx))
    rcases h r (List.mem_cons_self r rest) with hc | hf
    · rw [processResults, if_pos hc, hrest]
    · by_cases hc : r.confidence < 25
      · rw [processResults, if_pos hc, hrest]
      · rw [processResults, if_neg hc, hf, hrest]

/-- Case analysis on one drain-loop step: processed ids are preserved
(possibly extended), any item added to the live queue carries the snapshot
item's email, and any event appended is attributed to the snapshot item's
email id. -/
theorem drainItem_cases (cfg : DaemonConfig)
    (ex : EmailData → List EmailRule → Except String (List ProcessingResult))
    (sink : List (String × String) → String → String → ReminderResult)
    (now : Int) (st : DaemonState) (live : List ProcessingQueueItem)
    (evs : List DaemonEvent) (item : ProcessingQueueItem) :
    (∀ x ∈ st.processedEmailIds,
        x ∈ (drainItem cfg ex sink now (st, live, evs) item).1.processedEmailIds) ∧
    (∀ it ∈ (drainItem cfg ex sink now (st, live, evs) item).2.1,
        it ∈ live ∨ it.email = item.email) ∧
    (∀ ev ∈ (drainItem cfg ex sink now (st, live, evs) item).2.2,
        ev ∈ evs ∨ eventEmailId ev = some item.email.id) := by
  have hievs := processQueueItem_events ex sink item
  simp only [drainItem]
  rcases hpi : processQueueItem ex sink item with ⟨n, ievs, calls, err⟩
  rw [hpi] at hievs
  simp only at hievs
  rcases err with _ | e
  · refine ⟨?_, ?_, ?_⟩
    · intro x hx
      simpa using mem_setAdd_of_mem item.email.id hx
    · intro it hit
      simp only at hit
      exact Or.inl hit
    · intro ev hev
      simp only at hev
      rcases List.mem_append.mp hev with h | h
      · exact Or.inl h
      · exact Or.inr (hievs ev h)
  · by_cases hlt : item.attempts + 1 < cfg.retryAttempts
    · refine ⟨?_, ?_, ?_⟩
      · intro x hx
        simpa [hlt] using hx
      · intro it hit
        simp only [hlt, if_true] at hit
        rcases List.mem_append.mp hit with h | h
        · exact Or.inl h
        · refine Or.inr ?_
          have : it = { item with
                          attempts := item.attempts + 1
                          lastAttemptTime := some now
                          error := some e } := by
            simpa using h
          rw [this]
      · intro ev hev
        simp only [hlt, if_true] at hev
        rcases List.mem_append.mp hev with h | h
        · exact Or.inl h
        · exact Or.inr (hievs ev h)
    · refine ⟨?_, ?_, ?_⟩
      · intro x hx
        simpa [hlt] using hx
      · intro it hit
        simp only [hlt, if_false] at hit
        exact Or.inl hit
      · intro ev hev
        simp only [hlt, if_false] at hev
        rcases List.mem_append.mp hev with h | h
        · rcases List.mem_append.mp h with h2 | h2
          · exact Or.inl h2
          · exact Or.inr (hievs ev h2)
        · refine Or.inr ?_
          have : ev = DaemonEvent.processingFailed item.email.id e (item.attempts + 1) := by
            simpa using h
          rw [this]
          rfl

/-- Monotonicity of the drain loop: a processed id is never removed. -/
theorem foldl_drainItem_mem (cfg : DaemonConfig)
    (ex : EmailData → List EmailRule → Except String (List ProcessingResult))
    (sink : List (String × String) → String → String → ReminderResult)
    (now : Int) (queue : List ProcessingQueueItem) :
    ∀ (acc : DaemonState × List ProcessingQueueItem × List DaemonEvent) (x : String),
      x ∈ acc.1.processedEmailIds →
      x ∈ (queue.foldl (drainItem cfg ex sink now) acc).1.processedEmailIds := by
  induction queue with
  | nil => intro acc x hx; simpa using hx
  | cons item rest ih =>
    intro acc x hx
    rw [List.foldl_cons]
    apply ih
    obtain ⟨st, live, evs⟩ := acc
    exact (drainItem_cases cfg ex sink now st live evs item).1 x hx

/-- Every item on the live queue after a drain either was on the live
queue before or shares its email id with a snapshot item. -/
theorem foldl_drainItem_queue_origin (cfg : DaemonConfig)
    (ex : EmailData → List EmailRule → Except String (List ProcessingResult))
    (sink : List (String × String) → String → String → ReminderResult)
    (now : Int) (queue : List ProcessingQueueItem) :
    ∀ (acc : DaemonState × List ProcessingQueueItem × List DaemonEvent)
      (it : ProcessingQueueItem),
      it ∈ (queue.foldl (drainItem cfg ex sink now) acc).2.1 →
      it ∈ acc.2.1 ∨ ∃ it0 ∈ queue, it.email.id = it0.email.id := by
  induction queue with
  | nil => intro acc it h; exact Or.inl (by simpa using h)
  | cons item rest ih =>
    intro acc it h
    rw [List.foldl_cons] at h
    rcases ih (drainItem cfg ex sink now acc item) it h with hmem | ⟨it0, hit0, hid⟩
    · obtain ⟨st, live, evs⟩ := acc
      rcases (drainItem_cases cfg ex sink now st live evs item).2.1 it hmem with h1 | h1
      · exact Or.inl h1
      · exact Or.inr ⟨item, List.mem_cons_self item rest, by rw [h1]⟩
    · exact Or.inr ⟨it0, List.mem_cons_of_mem item hit0, hid⟩

/-- Every event a drain emits either was in the accumulator already or is
attributed to the email id of some snapshot item. -/
theorem foldl_drainItem_events_origin (cfg : DaemonConfig)
    (ex : EmailData → List EmailRule → Except String (List ProcessingResult))
    (sink : List (String × String) → String → String → ReminderResult)
    (now : Int) (queue : List ProcessingQueueItem) :
    ∀ (acc : DaemonState × List ProcessingQueueItem × List DaemonEvent)
      (ev : DaemonEvent),
      ev ∈ (queue.foldl (drainItem cfg ex sink now) acc).2.2 →
      ev ∈ acc.2.2 ∨ ∃ it0 ∈ queue, eventEmailId ev = some it0.email.id := by
  induction queue with
  | nil => intro acc ev h; exact Or.inl (by simpa using h)
  | cons item rest ih =>
    intro acc ev h
    rw [List.foldl_cons] at h
    rcases ih (drainItem cfg ex sink now acc item) ev h with hmem | ⟨it0, hit0, hid⟩
    · obtain ⟨st, live, evs⟩ := acc
      rcases (drainItem_cases cfg ex sink now st live evs item).2.2 ev hmem with h1 | h1
      · exact Or.inl h1
      · exact Or.inr ⟨item, List.mem_cons_self item rest, h1⟩
    · exact Or.inr ⟨it0, List.mem_cons_of_mem item hit0, hid⟩

/-- The enqueue loop appends exactly the matched emails whose ids are not
in the processed set, each as a fresh `attempts = 0` item; the existing
queue is never consulted. -/
theorem enqueueMatched_eq (st : DaemonState) (queue : List ProcessingQueueItem)
    (rules : List EmailRule) (emails : List EmailData) :
    enqueueMatched st queue rules emails =
      queue ++ (emails.filter fun e => !(setHas st.processedEmailIds e.id)).map
        (fun e => ⟨e, rules, 0, none, none⟩) := by
  induction emails generalizing queue with
  | nil => simp [enqueueMatched]
  | cons e rest ih =>
    simp only [enqueueMatched, List.foldl_cons] at ih ⊢
    by_cases h : setHas st.processedEmailIds e.id = true
    · rw [if_pos h, ih, List.filter_cons]
      simp [h]
    · rw [if_neg h, ih, List.filter_cons]
      simp only [Bool.not_eq_true] at h
      simp [h, addToQueue, List.append_assoc]

/-- `processEmailsOnce` on the rules-load-throws path. -/
theorem processEmailsOnce_error (cfg : DaemonConfig) (env : CycleEnv)
    (st : DaemonState) (queue : List ProcessingQueueItem) (e : String)
    (h : env.rules = .error e) :
    processEmailsOnce cfg env st queue =
      ({ st with lastErrorTimestamp := some env.endTime, lastErrorMessage := some e },
       queue,
       [DaemonEvent.processingError e,
        DaemonEvent.stateSaved (serializeState
          { st with lastErrorTimestamp := some env.endTime, lastErrorMessage := some e })]) := by
  unfold processEmailsOnce
  rw [h]

/-- `processEmailsOnce` on the zero-fetch early-return path. -/
theorem processEmailsOnce_empty (cfg : DaemonConfig) (env : CycleEnv)
    (st : DaemonState) (queue : List ProcessingQueueItem) (rules : List EmailRule)
    (h : env.rules = .ok rules) (hf : fetchNewEmails cfg st env = []) :
    processEmailsOnce cfg env st queue =
      (st, queue, [DaemonEvent.stateSaved (serializeState st)]) := by
  unfold processEmailsOnce
  rw [h, hf]
  rfl

/-- `processEmailsOnce` on the main path (rules loaded, at least one
fetched message). -/
theorem processEmailsOnce_nonempty (cfg : DaemonConfig) (env : CycleEnv)
    (st : DaemonState) (queue : List ProcessingQueueItem) (rules : List EmailRule)
    (h : env.rules = .ok rules) (hf : ¬(fetchNewEmails cfg st env).isEmpty = true) :
    processEmailsOnce cfg env st queue =
      (let matchedEmails := ((fetchNewEmails cfg st env).map fun e =>
          { e with matchedRules := env.matchRules e rules }).filter
            fun e => !e.matchedRules.isEmpty
       let queue1 := enqueueMatched st queue rules matchedEmails
       let out := processQueue cfg env.extract env.sink env.endTime st queue1
       ({ out.1 with lastProcessedTimestamp := env.endTime },
        out.2.1,
        out.2.2 ++
          [DaemonEvent.processingComplete matchedEmails.length
             (env.endTime - env.startTime) out.2.1.length,
           DaemonEvent.stateSaved (serializeState
             { out.1 with lastProcessedTimestamp := env.endTime })])) := by
  simp only [processEmailsOnce, h]
  rw [if_neg hf]

/-! ## Claim theorems -/

/-- C8: for every state-file content that is missing or fails to parse as
JSON, `loadState` does not throw (it is a total function) and leaves the
daemon with the constructor's default empty state: epoch timestamp, empty
`processedEmailIds`, zero counters.  `start()` therefore cannot fail
because of the state file: the load step produces no error on any file
content. -/
theorem corrupt_state_resilience (st : DaemonState) :
    loadState st .missing = st ∧
    (∀ raw, loadState st (.invalid raw) = st) ∧
    loadState initialState .missing = initialState ∧
    (∀ raw, loadState initialState (.invalid raw) = initialState) ∧
    initialState.lastProcessedTimestamp = 0 ∧
    initialState.processedEmailIds = [] ∧
    initialState.totalEmailsProcessed = 0 ∧
    initialState.totalRemindersCreated = 0 :=
  ⟨rfl, fun _ => rfl, rfl, fun _ => rfl, rfl, rfl, rfl, rfl⟩

/-- C9: serializing any `DaemonState` to the persisted format (ids as an
array, timestamps by their millisecond values, absent optional error
fields dropped) and loading it back reproduces the state exactly — same id
set, same counters, same timestamps.  The JS `Set` invariant (no
duplicates, which every reachable state satisfies) is the hypothesis. -/
theorem state_roundtrip (cur st : DaemonState) (h : st.processedEmailIds.Nodup) :
    loadState cur (.parsed (parseSaved (serializeState st))) = st := by
  simp [loadState, parseSaved, serializeState, listToSet_of_nodup h]

/-- Witness for C9 at the spec's concrete instance: ids `{"a","b"}`,
`totalEmailsProcessed = 5`, absent error fields. -/
theorem state_roundtrip_witness :
    (["a", "b"] : List String).Nodup ∧
    loadState initialState
        (.parsed (parseSaved (serializeState ⟨123, ["a", "b"], 5, 2, none, none⟩))) =
      ⟨123, ["a", "b"], 5, 2, none, none⟩ :=
  ⟨by decide,
   state_roundtrip initialState ⟨123, ["a", "b"], 5, 2, none, none⟩ (by decide)⟩

/-- Shared concrete configuration: `maxEmailsPerScan = 10`,
`retryAttempts = 3`, gmail enabled, iCloud not. -/
def probeCfg : DaemonConfig := ⟨30, 10, 3, true, false⟩

/-- Cycle environment whose gmail oracle reports back the limit it was
asked for: it returns one email whose `date` equals the requested limit. -/
def probeEnv : CycleEnv :=
  { rules := .ok []
    gmailReady := true
    gmailGet := fun n => .ok [⟨"probe", "s", "u", "b", (n : Int), .gmail, []⟩]
    icloudReady := false
    icloudGet := fun _ => .ok []
    matchRules := fun _ _ => []
    extract := fun _ _ => .ok []
    sink := fun _ _ _ => ⟨false, none, none⟩
    startTime := 0
    endTime := 0 }

/-- Like `probeEnv` but with a gmail oracle that only answers the request
limit 5 and fails at every other limit. -/
def probeEnv2 : CycleEnv :=
  { probeEnv with
      gmailGet := fun n =>
        if n = 5 then .ok [⟨"probe", "s", "u", "b", (n : Int), .gmail, []⟩]
        else .error "unexpected limit" }

/-- C2 counterexample: with `maxEmailsPerScan = 10` and exactly one ready
source, the fetch requests limit `5` (= `10 / 2`) from it — the returned
probe email's date records the requested limit — whereas the claim demands
`floor(10 / 1) = 10`. -/
theorem fetch_limit_counterexample :
    probeCfg.maxEmailsPerScan = 10 ∧
    probeEnv.gmailReady = true ∧
    probeEnv.icloudReady = false ∧
    fetchNewEmails probeCfg initialState probeEnv =
      [⟨"probe", "s", "u", "b", 5, .gmail, []⟩] ∧
    (5 : Int) ≠ 10 :=
  ⟨rfl, rfl, rfl, rfl, by decide⟩

/-- C2 amended: in every cycle each ready source is requested exactly
`floor(maxEmailsPerScan / 2)` messages, independent of how many sources
are ready: the fetch result depends on each source oracle only through
its value at limit `maxEmailsPerScan / 2`. -/
theorem fetch_limit_per_source (cfg : DaemonConfig) (st : DaemonState)
    (env env' : CycleEnv)
    (hg : env.gmailReady = env'.gmailReady)
    (hi : env.icloudReady = env'.icloudReady)
    (hgg : env.gmailGet (cfg.maxEmailsPerScan / 2) = env'.gmailGet (cfg.maxEmailsPerScan / 2))
    (hig : env.icloudGet (cfg.maxEmailsPerScan / 2) = env'.icloudGet (cfg.maxEmailsPerScan / 2)) :
    fetchNewEmails cfg st env = fetchNewEmails cfg st env' := by
  unfold fetchNewEmails
  rw [hg, hi, hgg, hig]

/-- Witness for the amended C2: two environments whose gmail oracles agree
only at limit 5 produce identical fetches under `maxEmailsPerScan = 10`. -/
theorem fetch_limit_per_source_witness :
    fetchNewEmails probeCfg initialState probeEnv =
      fetchNewEmails probeCfg initialState probeEnv2 :=
  fetch_limit_per_source probeCfg initialState probeEnv probeEnv2 rfl rfl rfl rfl

/-- Rule and message used for the C3 counterexample. -/
def dupRule : EmailRule := ⟨"r1", "tpl1"⟩

/-- A matched, unprocessed message that a provider returns twice in one
fetch. -/
def dupEmail : EmailData := ⟨"x", "s", "u", "b", 1, .gmail, ["r1"]⟩

/-- Environment for the C3 counterexample: gmail returns the same message
twice, it matches a rule, and the sink fails so drained items survive on
the live queue. -/
def dupEnv : CycleEnv :=
  { rules := .ok [dupRule]
    gmailReady := true
    gmailGet := fun _ => .ok [dupEmail, dupEmail]
    icloudReady := false
    icloudGet := fun _ => .ok []
    matchRules := fun _ _ => ["r1"]
    extract := fun _ _ => .ok [⟨"x", "r1", [], 90⟩]
    sink := fun _ _ _ => ⟨false, none, some "down"⟩
    startTime := 0
    endTime := 7 }

/-- C3 counterexample: the enqueue step checks only `processedEmailIds`,
not queue membership, so when the same unprocessed matched message arrives
twice in one cycle's fetch, the queue holds two items with the same
message id after the enqueue step (and still after the drain). -/
theorem enqueue_duplicate_counterexample :
    ((enqueueMatched initialState [] [dupRule] [dupEmail, dupEmail]).map
        fun it => it.email.id) = ["x", "x"] ∧
    (((processEmailsOnce probeCfg dupEnv initialState []).2.1).map
        fun it => it.email.id) = ["x", "x"] :=
  ⟨rfl, rfl⟩

/-- C3 amended: in every cycle a matched message is appended to the queue
(as a fresh `attempts = 0` item) iff its id is not in `processedEmailIds`;
the queue itself is never consulted, so nothing prevents two queue items
with the same message id when the same id is matched twice. -/
theorem enqueue_processed_check_only (st : DaemonState)
    (queue : List ProcessingQueueItem) (rules : List EmailRule)
    (emails : List EmailData) :
    enqueueMatched st queue rules emails =
      queue ++ (emails.filter fun e => !(setHas st.processedEmailIds e.id)).map
        (fun e => ⟨e, rules, 0, none, none⟩) :=
  enqueueMatched_eq st queue rules emails

/-- C4: processing a queue item's extraction results, (1) a result with
`confidence < 25` contributes nothing — no sink call, no event, no
failure, identical outcome to its absence; (2) if every result is
low-confidence the item completes successfully with no sink interaction
whatsoever (for any sink); (3) with a succeeding sink, every result with
`confidence ≥ 25` whose rule name matches a rule of the item produces a
recorded Reminder Sink call. -/
theorem confidence_gate (email : EmailData) (rules : List EmailRule)
    (results : List ProcessingResult) :
    (∀ (sink : List (String × String) → String → String → ReminderResult)
       (r : ProcessingResult) (rest : List ProcessingResult),
        r.confidence < 25 →
        processResults sink email rules (r :: rest) =
          processResults sink email rules rest) ∧
    ((∀ r ∈ results, r.confidence < 25) →
        ∀ sink, processResults sink email rules results = (0, [], [], none)) ∧
    (∀ sink, (∀ f t i, (sink f t i).success = true) →
        ∀ r ∈ results, ¬r.confidence < 25 →
        ∀ ru, rules.find? (fun x => x.name == r.ruleName) = some ru →
        (⟨r.extractedFields, ru.reminderTemplate, email.id⟩ : SinkCall) ∈
          (processResults sink email rules results).2.2.1) := by
  refine ⟨?_, ?_, ?_⟩
  · intro sink r rest h
    simp only [processResults, if_pos h]
  · intro h sink
    exact processResults_all_skipped sink email rules results
      (fun r hr => Or.inl (h r hr))
  · intro sink hsink
    induction results with
    | nil => intro r hr; cases hr
    | cons q rest ih =>
      intro r hr hc ru hru
      rcases List.mem_cons.mp hr with heq | hmem
      · subst heq
        simp only [processResults, if_neg hc, hru, hsink, if_true]
        rcases processResults sink email rules rest with ⟨n, evs, calls, err⟩
        simp
      · have hrec := ih r hmem hc ru hru
        by_cases hq : q.confidence < 25
        · simp only [processResults, if_pos hq]
          exact hrec
        · rcases hfq : rules.find? (fun x => x.name == q.ruleName) with _ | ruq
          · simp only [processResults, if_neg hq, hfq]
            exact hrec
          · simp only [processResults, if_neg hq, hfq, hsink, if_true]
            revert hrec
            rcases processResults sink email rules rest with ⟨n, evs, calls, err⟩
            intro hrec
            simp only at hrec ⊢
            exact List.mem_cons_of_mem _ hrec

/-- Rule, message and oracles for the C4 witness: one result at confidence
20 and one at 25 against a succeeding sink. -/
def gateEmail : EmailData := ⟨"g1", "s", "u", "b", 1, .gmail, ["r1"]⟩

def gateRule : EmailRule := ⟨"r1", "tplg"⟩

def gateSink : List (String × String) → String → String → ReminderResult :=
  fun _ _ _ => ⟨true, some "RG", none⟩

def gateLow : ProcessingResult := ⟨"g1", "r1", [("k", "v")], 20⟩

def gateHigh : ProcessingResult := ⟨"g1", "r1", [("k", "v")], 25⟩

/-- Witness for C4: with results at confidence 20 and 25, exactly one sink
call is made — the one for the confidence-25 result — and the item is no
failure. -/
theorem confidence_gate_witness :
    processResults gateSink gateEmail [gateRule] [gateLow, gateHigh] =
      (1, [DaemonEvent.reminderCreated "g1" (some "RG") "r1" 25],
       [⟨[("k", "v")], "tplg", "g1"⟩], none) ∧
    (⟨[("k", "v")], "tplg", "g1"⟩ : SinkCall) ∈
      (processResults gateSink gateEmail [gateRule] [gateLow, gateHigh]).2.2.1 :=
  ⟨by decide,
   (confidence_gate gateEmail [gateRule] [gateLow, gateHigh]).2.2 gateSink
     (fun _ _ _ => rfl) gateHigh (by decide) (by decide) gateRule (by decide)⟩

/-- C6: when a queue item's single extraction result clears the confidence
gate, matches a rule, and the Reminder Sink succeeds with id `rid`, the
drain marks the message id processed, increments `totalEmailsProcessed`
and `totalRemindersCreated` by one each, drops the item, and emits exactly
one `reminderCreated` event carrying the email id, reminder id, rule name
and confidence. -/
theorem success_bookkeeping (cfg : DaemonConfig)
    (ex : EmailData → List EmailRule → Except String (List ProcessingResult))
    (sink : List (String × String) → String → String → ReminderResult)
    (now : Int) (st : DaemonState) (item : ProcessingQueueItem)
    (res : ProcessingResult) (ru : EmailRule) (rid : String)
    (hex : ex item.email item.rules = .ok [res])
    (hconf : ¬res.confidence < 25)
    (hrule : item.rules.find? (fun x => x.name == res.ruleName) = some ru)
    (hsink : sink res.extractedFields ru.reminderTemplate item.email.id =
      ⟨true, some rid, none⟩) :
    processQueue cfg ex sink now st [item] =
      ({ st with
          processedEmailIds := setAdd st.processedEmailIds item.email.id
          totalEmailsProcessed := st.totalEmailsProcessed + 1
          totalRemindersCreated := st.totalRemindersCreated + 1 },
       [],
       [DaemonEvent.reminderCreated item.email.id (some rid) res.ruleName
          res.confidence]) := by
  have hitem : processQueueItem ex sink item =
      (1, [DaemonEvent.reminderCreated item.email.id (some rid) res.ruleName
             res.confidence],
       [⟨res.extractedFields, ru.reminderTemplate, item.email.id⟩], none) := by
    unfold processQueueItem
    rw [hex]
    simp only [processResults, if_neg hconf, hrule, hsink, if_true]
  unfold processQueue
  simp only [List.foldl_cons, List.foldl_nil, drainItem, hitem]
  simp

/-- §8 scenario pieces: message `m1`, rule `r1`, extraction at confidence
85, sink returning reminder id `R1`. -/
def m1Email : EmailData := ⟨"m1", "s", "u", "b", 1, .gmail, ["r1"]⟩

def m1Rule : EmailRule := ⟨"r1", "tplm"⟩

def m1Item : ProcessingQueueItem := ⟨m1Email, [m1Rule], 0, none, none⟩

def m1Res : ProcessingResult :=
  ⟨"m1", "r1", [("monto", "1000"), ("vencimiento", "2025-03-01")], 85⟩

def m1Ex : EmailData → List EmailRule → Except String (List ProcessingResult) :=
  fun _ _ => .ok [m1Res]

def m1Sink : List (String × String) → String → String → ReminderResult :=
  fun _ _ _ => ⟨true, some "R1", none⟩

/-- Witness for C6 at the §8 scenario: `reminderCreated` fires with email
id `m1`, reminder id `R1`, confidence 85; `totalRemindersCreated` becomes
1 and `m1` lands in `processedEmailIds`. -/
theorem success_bookkeeping_witness :
    processQueue probeCfg m1Ex m1Sink 0 initialState [m1Item] =
      (⟨0, ["m1"], 1, 1, none, none⟩, [],
       [DaemonEvent.reminderCreated "m1" (some "R1") "r1" 85]) :=
  (success_bookkeeping probeCfg m1Ex m1Sink 0 initialState m1Item m1Res m1Rule "R1"
      rfl (by decide) rfl rfl).trans (by decide)

/-- C10: a queue item all of whose extraction results are low-confidence
(or match no rule of the item) completes without failing: the drain still
adds the message id to `processedEmailIds` and increments
`totalEmailsProcessed`, while `totalRemindersCreated` is unchanged; the id
is then permanently excluded from every later fetch. -/
theorem low_confidence_marked_processed (cfg : DaemonConfig)
    (ex : EmailData → List EmailRule → Except String (List ProcessingResult))
    (sink : List (String × String) → String → String → ReminderResult)
    (now : Int) (st : DaemonState) (item : ProcessingQueueItem)
    (results : List ProcessingResult)
    (hex : ex item.email item.rules = .ok results)
    (hskip : ∀ r ∈ results, r.confidence < 25 ∨
        item.rules.find? (fun ru => ru.name == r.ruleName) = none) :
    processQueue cfg ex sink now st [item] =
      ({ st with
          processedEmailIds := setAdd st.processedEmailIds item.email.id
          totalEmailsProcessed := st.totalEmailsProcessed + 1 },
       [], []) ∧
    item.email.id ∈ (processQueue cfg ex sink now st [item]).1.processedEmailIds ∧
    (processQueue cfg ex sink now st [item]).1.totalRemindersCreated =
      st.totalRemindersCreated ∧
    (∀ (cfg2 : DaemonConfig) (env2 : CycleEnv) (e : EmailData),
        e ∈ fetchNewEmails cfg2 (processQueue cfg ex sink now st [item]).1 env2 →
        e.id ≠ item.email.id) := by
  have hitem : processQueueItem ex sink item = (0, [], [], none) := by
    unfold processQueueItem
    rw [hex]
    exact processResults_all_skipped sink item.email item.rules results hskip
  have hq : processQueue cfg ex sink now st [item] =
      ({ st with
          processedEmailIds := setAdd st.processedEmailIds item.email.id
          totalEmailsProcessed := st.totalEmailsProcessed + 1 },
       [], []) := by
    unfold processQueue
    simp only [List.foldl_cons, List.foldl_nil, drainItem, hitem]
    simp
  refine ⟨hq, ?_, ?_, ?_⟩
  · rw [hq]
    exact mem_setAdd_self st.processedEmailIds item.email.id
  · rw [hq]
  · intro cfg2 env2 e he heq
    rw [hq] at he
    simp only [fetchNewEmails] at he
    have hp := (List.mem_filter.mp he).2
    simp [setHas] at hp
    exact hp.1 (heq ▸ mem_setAdd_self st.processedEmailIds item.email.id)

/-- Oracles for the C10 witness: a single extraction result at confidence
10 for message `m2`. -/
def lowItem : ProcessingQueueItem :=
  ⟨⟨"m2", "s", "u", "b", 1, .gmail, ["r1"]⟩, [⟨"r1", "tpll"⟩], 0, none, none⟩

def lowEx : EmailData → List EmailRule → Except String (List ProcessingResult) :=
  fun _ _ => .ok [⟨"m2", "r1", [], 10⟩]

def lowSink : List (String × String) → String → String → ReminderResult :=
  fun _ _ _ => ⟨false, none, some "never called"⟩

/-- Witness for C10: the all-low-confidence item is marked processed and
counted, no reminder is created, and `m2` is afterwards in the processed
set. -/
theorem low_confidence_marked_processed_witness :
    processQueue probeCfg lowEx lowSink 0 initialState [lowItem] =
      (⟨0, ["m2"], 1, 0, none, none⟩, [], []) ∧
    "m2" ∈ (processQueue probeCfg lowEx lowSink 0 initialState [lowItem]).1.processedEmailIds :=
  ⟨((low_confidence_marked_processed probeCfg lowEx lowSink 0 initialState lowItem
      [⟨"m2", "r1", [], 10⟩] rfl (by decide)).1).trans (by decide),
   (low_confidence_marked_processed probeCfg lowEx lowSink 0 initialState lowItem
      [⟨"m2", "r1", [], 10⟩] rfl (by decide)).2.1⟩

/-- The queue item as it looks after `k` failed drains: `attempts = k`
with the attempt bookkeeping recorded (for `k = 0`, the original item). -/
def failedItem (item : ProcessingQueueItem) (now : Int) (msg : String) :
    Nat → ProcessingQueueItem
  | 0 => item
  | k + 1 => { item with
      attempts := k + 1
      lastAttemptTime := some now
      error := some msg }

/-- C5: for a queue item that fails on every attempt (its processing
always throws `msg`), each drain increments `attempts` by exactly one and
re-appends the item to the live queue — it is retried on the next drain,
never twice within one — until drain number `retryAttempts`, which emits
exactly one `processingFailed` event carrying the email id, the final
error and `attempts = retryAttempts`, and drops the item for good; the
state (in particular `processedEmailIds`) is never touched. -/
theorem retry_bound (cfg : DaemonConfig)
    (ex : EmailData → List EmailRule → Except String (List ProcessingResult))
    (sink : List (String × String) → String → String → ReminderResult)
    (now : Int) (st : DaemonState) (item : ProcessingQueueItem)
    (msg : String) (calls : List SinkCall)
    (hR : 1 ≤ cfg.retryAttempts)
    (h0 : item.attempts = 0)
    (hfail : processQueueItem ex sink item = (0, [], calls, some msg)) :
    (∀ k, k < cfg.retryAttempts →
        drainN cfg ex sink now st [item] k =
          (st, [failedItem item now msg k], [])) ∧
    (∀ j, drainN cfg ex sink now st [item] (cfg.retryAttempts + j) =
        (st, [],
         [DaemonEvent.processingFailed item.email.id msg cfg.retryAttempts])) := by
  have hfail' : ∀ k, processQueueItem ex sink (failedItem item now msg k) =
      (0, [], calls, some msg) := by
    intro k
    cases k with
    | zero => exact hfail
    | succ k => exact (processQueueItem_congr ex sink _ item rfl rfl).trans hfail
  have hatt : ∀ k, (failedItem item now msg k).attempts = k := by
    intro k
    cases k with
    | zero => exact h0
    | succ k => rfl
  have hmail : ∀ k, (failedItem item now msg k).email = item.email := by
    intro k
    cases k with
    | zero => rfl
    | succ k => rfl
  have hupd : ∀ k, ProcessingQueueItem.mk item.email (failedItem item now msg k).rules
      (k + 1) (some now) (some msg) = failedItem item now msg (k + 1) := by
    intro k
    cases k with
    | zero => rfl
    | succ k => rfl
  have step : ∀ (s : DaemonState) (k : Nat),
      processQueue cfg ex sink now s [failedItem item now msg k] =
        if k + 1 < cfg.retryAttempts then (s, [failedItem item now msg (k + 1)], [])
        else (s, [],
          [DaemonEvent.processingFailed item.email.id msg (k + 1)]) := by
    intro s k
    unfold processQueue
    simp only [List.foldl_cons, List.foldl_nil, drainItem, hfail' k, hatt k, hmail k]
    by_cases hlt : k + 1 < cfg.retryAttempts
    · simp [hlt, hupd k]
    · simp [hlt]
  have hconj1 : ∀ k, k < cfg.retryAttempts →
      drainN cfg ex sink now st [item] k = (st, [failedItem item now msg k], []) := by
    intro k
    induction k with
    | zero => intro _; rfl
    | succ k ih =>
      intro hk
      have hprev := ih (Nat.lt_of_succ_lt hk)
      simp only [drainN, hprev, step st k, if_pos hk, List.nil_append]
  refine ⟨hconj1, ?_⟩
  intro j
  obtain ⟨r, hr⟩ : ∃ r, cfg.retryAttempts = r + 1 := ⟨cfg.retryAttempts - 1, by omega⟩
  have hprev := hconj1 r (by omega)
  rw [hr]
  induction j with
  | zero =>
    simp only [Nat.add_zero, drainN, hprev, step st r, if_neg (by omega : ¬r + 1 < cfg.retryAttempts),
      List.nil_append]
  | succ j ihj =>
    show drainN cfg ex sink now st [item] (((r + 1) + j) + 1) = _
    simp only [drainN, ihj, processQueue, List.foldl_nil, List.append_nil]

/-- Oracles for the C5 witness: message `m3` whose single high-confidence
result always hits a failing sink. -/
def failItem3 : ProcessingQueueItem :=
  ⟨⟨"m3", "s", "u", "b", 1, .gmail, ["r1"]⟩, [⟨"r1", "tplf"⟩], 0, none, none⟩

def failEx : EmailData → List EmailRule → Except String (List ProcessingResult) :=
  fun _ _ => .ok [⟨"m3", "r1", [], 50⟩]

def failSink : List (String × String) → String → String → ReminderResult :=
  fun _ _ _ => ⟨false, none, some "boom"⟩

/-- Witness for C5 with `retryAttempts = 3`: after two drains the item is
still queued with `attempts = 2` and nothing emitted; the third drain
drops it for good and fires `processingFailed` with `attempts = 3`; the
state is untouched. -/
theorem retry_bound_witness :
    drainN probeCfg failEx failSink 9 initialState [failItem3] 2 =
      (initialState, [failedItem failItem3 9 "boom" 2], []) ∧
    drainN probeCfg failEx failSink 9 initialState [failItem3] 3 =
      (initialState, [], [DaemonEvent.processingFailed "m3" "boom" 3]) :=
  ⟨(retry_bound probeCfg failEx failSink 9 initialState failItem3 "boom"
      [⟨[], "tplf", "m3"⟩] (by decide) rfl rfl).1 2 (by decide),
   (retry_bound probeCfg failEx failSink 9 initialState failItem3 "boom"
      [⟨[], "tplf", "m3"⟩] (by decide) rfl rfl).2 0⟩

/-- C1 amended: deduplication invariant of one cycle, qualified by the
absence of a leftover queue item for the processed id (the drain itself
never consults `processedEmailIds`, so without that proviso a leftover
retry item is re-extracted — see the counterexample).  If `mid` is in
`processedEmailIds` and not on the live queue, then over the cycle
(a) the processed-id set only grows, (b) `fetchNewEmails` filters out
every message with id `mid`, (c) the enqueue step never adds an item with
id `mid` (for any rules and any matched emails, so `mid` is never drained
and never re-extracted), (d) the queue after the cycle has no item with id
`mid`, and (e) no emitted event — in particular no `reminderCreated` —
is attributed to `mid`. -/
theorem dedup_invariant (cfg : DaemonConfig) (env : CycleEnv) (st : DaemonState)
    (queue : List ProcessingQueueItem) (mid : String)
    (hm : mid ∈ st.processedEmailIds)
    (hq : ∀ it ∈ queue, it.email.id ≠ mid) :
    (∀ x ∈ st.processedEmailIds,
        x ∈ (processEmailsOnce cfg env st queue).1.processedEmailIds) ∧
    (∀ e ∈ fetchNewEmails cfg st env, e.id ≠ mid) ∧
    (∀ (rules : List EmailRule) (emails : List EmailData),
        ∀ it ∈ enqueueMatched st queue rules emails, it.email.id ≠ mid) ∧
    (∀ it ∈ (processEmailsOnce cfg env st queue).2.1, it.email.id ≠ mid) ∧
    (∀ ev ∈ (processEmailsOnce cfg env st queue).2.2, eventEmailId ev ≠ some mid) := by
  have hfetch : ∀ e ∈ fetchNewEmails cfg st env, e.id ≠ mid := by
    intro e he heq
    simp only [fetchNewEmails] at he
    have hp := (List.mem_filter.mp he).2
    simp [setHas] at hp
    exact hp.1 (heq ▸ hm)
  have henq : ∀ (rules : List EmailRule) (emails : List EmailData),
      ∀ it ∈ enqueueMatched st queue rules emails, it.email.id ≠ mid := by
    intro rules emails it hit
    rw [enqueueMatched_eq] at hit
    rcases List.mem_append.mp hit with h1 | h1
    · exact hq it h1
    · rcases List.mem_map.mp h1 with ⟨e, he, heq⟩
      have := (List.mem_filter.mp he).2
      simp [setHas] at this
      rw [← heq]
      intro hid
      exact this (hid ▸ hm)
  rcases hrules : env.rules with e | rules
  · rw [processEmailsOnce_error cfg env st queue e hrules]
    refine ⟨fun x hx => hx, hfetch, henq, hq, ?_⟩
    intro ev hev
    rcases List.mem_cons.mp hev with h | h
    · subst h; simp [eventEmailId]
    · simp only [List.mem_singleton] at h
      subst h
      simp [eventEmailId]
  · by_cases hf : (fetchNewEmails cfg st env).isEmpty = true
    · rw [processEmailsOnce_empty cfg env st queue rules hrules
        (List.isEmpty_iff.mp hf)]
      refine ⟨fun x hx => hx, hfetch, henq, hq, ?_⟩
      intro ev hev
      simp only [List.mem_singleton] at hev
      subst hev
      simp [eventEmailId]
    · rw [processEmailsOnce_nonempty cfg env st queue rules hrules hf]
      simp only []
      set matchedEmails := ((fetchNewEmails cfg st env).map fun e =>
          { e with matchedRules := env.matchRules e rules }).filter
            (fun e => !e.matchedRules.isEmpty) with hme
      set queue1 := enqueueMatched st queue rules matchedEmails with hq1
      have hq1mid : ∀ it ∈ queue1, it.email.id ≠ mid := henq rules matchedEmails
      refine ⟨?_, hfetch, henq, ?_, ?_⟩
      · intro x hx
        exact foldl_drainItem_mem cfg env.extract env.sink env.endTime queue1
          (st, [], []) x hx
      · intro it hit
        rcases foldl_drainItem_queue_origin cfg env.extract env.sink env.endTime
            queue1 (st, [], []) it hit with h1 | ⟨it0, hit0, hid⟩
        · cases h1
        · rw [hid]
          exact hq1mid it0 hit0
      · intro ev hev
        rcases List.mem_append.mp hev with h1 | h1
        · rcases foldl_drainItem_events_origin cfg env.extract env.sink env.endTime
              queue1 (st, [], []) ev h1 with h2 | ⟨it0, hit0, hid⟩
          · cases h2
          · rw [hid]
            intro hc
            exact hq1mid it0 hit0 (by injection hc)
        · rcases List.mem_cons.mp h1 with h2 | h2
          · rw [h2]; simp [eventEmailId]
          · simp only [List.mem_singleton] at h2
            subst h2
            simp [eventEmailId]

/-- Environment for the C1 witness: the provider re-fetches message `m`,
which is already in the processed set. -/
def dedupEnv : CycleEnv :=
  { rules := .ok [⟨"r1", "tpld"⟩]
    gmailReady := true
    gmailGet := fun _ => .ok [⟨"m", "s", "u", "b", 1, .gmail, []⟩]
    icloudReady := false
    icloudGet := fun _ => .ok []
    matchRules := fun _ _ => ["r1"]
    extract := fun _ _ => .ok []
    sink := fun _ _ _ => ⟨true, some "R", none⟩
    startTime := 0
    endTime := 3 }

/-- State for the C1 witness: `m` already processed. -/
def dedupState : DaemonState := ⟨0, ["m"], 1, 1, none, none⟩

/-- Witness for C1: re-fetching processed message `m` in a fresh cycle
leaves it excluded from the fetch result and no event of the cycle is
attributed to it. -/
theorem dedup_invariant_witness :
    ("m" ∈ dedupState.processedEmailIds) ∧
    (∀ e ∈ fetchNewEmails probeCfg dedupState dedupEnv, e.id ≠ "m") ∧
    (∀ ev ∈ (processEmailsOnce probeCfg dedupEnv dedupState []).2.2,
        eventEmailId ev ≠ some "m") :=
  ⟨by decide,
   (dedup_invariant probeCfg dedupEnv dedupState [] "m" (by decide)
      (fun it h => absurd h (List.not_mem_nil it))).2.1,
   (dedup_invariant probeCfg dedupEnv dedupState [] "m" (by decide)
      (fun it h => absurd h (List.not_mem_nil it))).2.2.2.2⟩

theorem getLast?_append_pair {α : Type _} (l : List α) (a b : α) :
    (l ++ [a, b]).getLast? = some b := by
  rw [List.getLast?_append_cons]
  rfl

/-- Environment whose fetch yields zero new messages. -/
def emptyEnv : CycleEnv :=
  { rules := .ok []
    gmailReady := true
    gmailGet := fun _ => .ok []
    icloudReady := false
    icloudGet := fun _ => .ok []
    matchRules := fun _ _ => []
    extract := fun _ _ => .ok []
    sink := fun _ _ _ => ⟨true, some "R", none⟩
    startTime := 2
    endTime := 5 }

/-- Environment for a successful one-message cycle. -/
def fullEnv : CycleEnv :=
  { rules := .ok [⟨"r9", "tpl9"⟩]
    gmailReady := true
    gmailGet := fun _ => .ok [⟨"m9", "s", "u", "b", 1, .gmail, []⟩]
    icloudReady := false
    icloudGet := fun _ => .ok []
    matchRules := fun _ _ => ["r9"]
    extract := fun _ _ => .ok [⟨"m9", "r9", [], 80⟩]
    sink := fun _ _ _ => ⟨true, some "R9", none⟩
    startTime := 2
    endTime := 5 }

/-- C7 counterexample.  First: a cycle whose fetch returns zero messages
returns early — the state is still persisted, but `lastProcessedTimestamp`
stays 0 instead of being set to the cycle's end time 5, and neither
`processingComplete` nor `processingError` is emitted, contradicting the
claimed "exactly one" of them.  Second: on a successful non-empty cycle
the trace is `reminderCreated, processingComplete, stateSaved` — the event
is emitted before the state is persisted, not after. -/
theorem cycle_postcondition_counterexample :
    processEmailsOnce probeCfg emptyEnv initialState [] =
      (initialState, [], [DaemonEvent.stateSaved (serializeState initialState)]) ∧
    initialState.lastProcessedTimestamp = 0 ∧
    emptyEnv.endTime = 5 ∧
    (0 : Int) ≠ 5 ∧
    processEmailsOnce probeCfg fullEnv initialState [] =
      (⟨5, ["m9"], 1, 1, none, none⟩, [],
       [DaemonEvent.reminderCreated "m9" (some "R9") "r9" 80,
        DaemonEvent.processingComplete 1 3 0,
        DaemonEvent.stateSaved ⟨5, ["m9"], 1, 1, none, none⟩]) := by
  refine ⟨by decide, rfl, rfl, by decide, by decide⟩

/-- C7 amended: every cycle's action trace ends with persisting the final
state (both success and failure paths), and the persist comes after any
event rather than before it.  On a rules-load error the cycle records the
error and emits exactly one `processingError` and no `processingComplete`;
on a zero-fetch cycle it emits nothing and leaves the state (including
`lastProcessedTimestamp`) unchanged, but still persists; on a non-empty
error-free cycle it sets `lastProcessedTimestamp` to the cycle's end time
and emits exactly one `processingComplete` and no `processingError`. -/
theorem cycle_postcondition (cfg : DaemonConfig) (env : CycleEnv)
    (st : DaemonState) (queue : List ProcessingQueueItem) :
    ((processEmailsOnce cfg env st queue).2.2.getLast? =
      some (DaemonEvent.stateSaved
        (serializeState (processEmailsOnce cfg env st queue).1))) ∧
    (∀ e, env.rules = .error e →
      (processEmailsOnce cfg env st queue).1.lastErrorMessage = some e ∧
      (processEmailsOnce cfg env st queue).1.lastErrorTimestamp = some env.endTime ∧
      (processEmailsOnce cfg env st queue).2.2.countP isProcessingComplete = 0 ∧
      (processEmailsOnce cfg env st queue).2.2.countP isProcessingError = 1) ∧
    (∀ rules, env.rules = .ok rules → fetchNewEmails cfg st env = [] →
      processEmailsOnce cfg env st queue =
        (st, queue, [DaemonEvent.stateSaved (serializeState st)])) ∧
    (∀ rules, env.rules = .ok rules → fetchNewEmails cfg st env ≠ [] →
      (processEmailsOnce cfg env st queue).1.lastProcessedTimestamp = env.endTime ∧
      (processEmailsOnce cfg env st queue).2.2.countP isProcessingComplete = 1 ∧
      (processEmailsOnce cfg env st queue).2.2.countP isProcessingError = 0) := by
  rcases hrules : env.rules with e0 | rules0
  · rw [processEmailsOnce_error cfg env st queue e0 hrules]
    refine ⟨rfl, ?_, ?_, ?_⟩
    · intro e he
      injection he with he0
      subst he0
      exact ⟨rfl, rfl, by simp [List.countP_cons, isProcessingComplete, isProcessingError],
        by simp [List.countP_cons, isProcessingComplete, isProcessingError]⟩
    · intro rules hok
      cases hok
    · intro rules hok
      cases hok
  · by_cases hf : (fetchNewEmails cfg st env).isEmpty = true
    · have hfe : fetchNewEmails cfg st env = [] := List.isEmpty_iff.mp hf
      rw [processEmailsOnce_empty cfg env st queue rules0 hrules hfe]
      refine ⟨rfl, ?_, ?_, ?_⟩
      · intro e he
        cases he
      · intro rules _ _
        rfl
      · intro rules _ hne
        exact absurd hfe hne
    · rw [processEmailsOnce_nonempty cfg env st queue rules0 hrules hf]
      simp only []
      set out := processQueue cfg env.extract env.sink env.endTime st
        (enqueueMatched st queue rules0 (((fetchNewEmails cfg st env).map fun e =>
            { e with matchedRules := env.matchRules e rules0 }).filter
          fun e => !e.matchedRules.isEmpty)) with hout
      have hevs : ∀ ev ∈ out.2.2,
          isProcessingComplete ev = false ∧ isProcessingError ev = false := by
        intro ev hev
        rcases foldl_drainItem_events_origin cfg env.extract env.sink env.endTime
            _ (st, [], []) ev hev with h | ⟨it0, _, hid⟩
        · cases h
        · exact eventEmailId_some_not_cycle_event hid
      have hcc : out.2.2.countP isProcessingComplete = 0 :=
        List.countP_eq_zero.mpr fun ev hev => by simp [(hevs ev hev).1]
      have hce : out.2.2.countP isProcessingError = 0 :=
        List.countP_eq_zero.mpr fun ev hev => by simp [(hevs ev hev).2]
      refine ⟨getLast?_append_pair _ _ _, ?_, ?_, ?_⟩
      · intro e he
        cases he
      · intro rules _ hempty
        exact absurd (by rw [hempty]; rfl) hf
      · intro rules _ _
        refine ⟨by trivial, ?_, ?_⟩
        · rw [List.countP_append, hcc]
          simp [List.countP_cons, isProcessingComplete, isProcessingError]
        · rw [List.countP_append, hce]
          simp [List.countP_cons, isProcessingComplete, isProcessingError]

/-- Environment whose rule load throws. -/
def errEnv : CycleEnv :=
  { emptyEnv with rules := .error "vault down", startTime := 1, endTime := 4 }

/-- Witness for the amended C7, on the cycle-level-error path: the error
is recorded in the state and exactly one `processingError` (and no
`processingComplete`) is emitted. -/
theorem cycle_postcondition_witness :
    (processEmailsOnce probeCfg errEnv initialState []).1.lastErrorMessage =
      some "vault down" ∧
    (processEmailsOnce probeCfg errEnv initialState []).1.lastErrorTimestamp =
      some (4 : Int) ∧
    (processEmailsOnce probeCfg errEnv initialState []).2.2.countP
      isProcessingComplete = 0 ∧
    (processEmailsOnce probeCfg errEnv initialState []).2.2.countP
      isProcessingError = 1 :=
  (cycle_postcondition probeCfg errEnv initialState []).2.1 "vault down" rfl

/-- A leftover retry item for message `x` (`attempts = 1`, failure
recorded), as the drain re-queues it after a transient sink failure. -/
def leftoverX : ProcessingQueueItem :=
  ⟨⟨"x", "s", "u", "b", 1, .gmail, ["r1"]⟩, [⟨"r1", "tplx"⟩], 1, some 0, some "down"⟩

/-- A daemon state in which `x` is already in `processedEmailIds` while
`leftoverX` still sits on the live queue — reachable via the
duplicate-enqueue behaviour (two queue items for `x` in one cycle, the
first succeeding at the sink and the second failing transiently). -/
def reextractState : DaemonState := ⟨0, ["x"], 1, 1, none, none⟩

/-- Environment for the C1 counterexample: the fetch yields one fresh
unmatched message `y` (so the cycle passes the zero-fetch early return
and drains the queue), extraction for `x` clears the confidence gate,
and the sink now succeeds. -/
def reextractEnv : CycleEnv :=
  { rules := .ok [⟨"r1", "tplx"⟩]
    gmailReady := true
    gmailGet := fun _ => .ok [⟨"y", "s", "u", "b", 1, .gmail, []⟩]
    icloudReady := false
    icloudGet := fun _ => .ok []
    matchRules := fun _ _ => []
    extract := fun _ _ => .ok [⟨"x", "r1", [], 90⟩]
    sink := fun _ _ _ => ⟨true, some "R2", none⟩
    startTime := 2
    endTime := 5 }

/-- C1 counterexample: with `x` already in `processedEmailIds` but a
leftover retry item for `x` still queued, the next cycle's drain — which
never consults `processedEmailIds` — re-extracts `x` and emits a second
`reminderCreated` for it, so the unqualified "never re-extracted, never
causes a reminder to be created again" fails on the code. -/
theorem dedup_reextraction_counterexample :
    "x" ∈ reextractState.processedEmailIds ∧
    leftoverX ∈ ([leftoverX] : List ProcessingQueueItem) ∧
    leftoverX.email.id = "x" ∧
    processEmailsOnce probeCfg reextractEnv reextractState [leftoverX] =
      (⟨5, ["x"], 2, 2, none, none⟩, [],
       [DaemonEvent.reminderCreated "x" (some "R2") "r1" 90,
        DaemonEvent.processingComplete 0 3 0,
        DaemonEvent.stateSaved ⟨5, ["x"], 2, 2, none, none⟩]) ∧
    DaemonEvent.reminderCreated "x" (some "R2") "r1" 90 ∈
      (processEmailsOnce probeCfg reextractEnv reextractState [leftoverX]).2.2 :=
  ⟨by decide, by decide, rfl, by decide, by decide⟩
